import Mathlib

/-!
# Verification of the mailsorter archive engine

Shallow embedding of `src/mailsorter/archive.py` (class `MailArchive`, the
`process` ingestion driver and the `export` metadata exporter) together with
proofs of the specification claims.

External collaborators (the `hashlib` fingerprint, the `email.utils` date and
address parsers, and the local-time fallback of `mktime_tz`) are modelled as
parameters gathered in an `Env` record; the repository's own logic is
translated function by function from the source.
-/

namespace Mailsorter

/-- A parsed e-mail message as the archive sees it: an ordered header list
(`msg.get`, `msg.get_all`, `'...' in msg` read it) and the exact byte
serialization `bytes(msg)` (the dedup fingerprint and the export size read it). -/
structure EmailMessage where
  headers : List (String × String)
  content : List Nat
deriving DecidableEq, Repr

/-- ASCII lowercase of one character (`str.lower` on the alphabets the claims use). -/
def lowerChar (c : Char) : Char :=
  if 'A' ≤ c ∧ c ≤ 'Z' then Char.ofNat (c.toNat + 32) else c

/-- ASCII lowercase of a string (`str.lower`). -/
def lowerStr (s : String) : String :=
  String.mk (s.data.map lowerChar)

/-- `msg.get(name)`: first header with the given (case-insensitive) name, or `None`. -/
def EmailMessage.get (m : EmailMessage) (name : String) : Option String :=
  (m.headers.find? (fun p => lowerStr p.1 = lowerStr name)).map Prod.snd

/-- `msg.get_all(name, [])`: values of every header with the given name, in order. -/
def EmailMessage.get_all (m : EmailMessage) (name : String) : List String :=
  (m.headers.filter (fun p => lowerStr p.1 = lowerStr name)).map Prod.snd

/-- `name in msg`: does a header with the given name exist (value may be empty)? -/
def EmailMessage.hasHeader (m : EmailMessage) (name : String) : Bool :=
  m.headers.any (fun p => lowerStr p.1 = lowerStr name)

/-- The 10-tuple returned by `email.utils.parsedate_tz`, with the timezone
offset (in seconds) possibly absent. -/
structure DateTuple where
  year : Int
  month : Int
  day : Int
  hour : Int
  minute : Int
  second : Int
  tz : Option Int
deriving DecidableEq, Repr

/-- The external collaborators of the archive engine, modelled as parameters:
`hashlib.md5(...).hexdigest()` over the serialized bytes, `email.utils.parsedate_tz`,
the local-time interpretation `time.mktime` applies inside `email.utils.mktime_tz`
when the parsed tuple carries no timezone, and the address parsers
`email.utils.parseaddr` / `email.utils.getaddresses`. -/
structure Env where
  md5hex : List Nat → String
  parsedate_tz : String → Option DateTuple
  mktimeLocal : DateTuple → Int
  parseaddr : String → String × String
  getaddresses : List String → List (String × String)

/-! ## Calendar arithmetic: `calendar.timegm` and `datetime.datetime.utcfromtimestamp` -/

/-- Days since 1970-01-01 of a proleptic-Gregorian civil date (the arithmetic
underlying `calendar.timegm`). -/
def daysFromCivil (y m d : Int) : Int :=
  let yy : Int := if m ≤ 2 then y - 1 else y
  let era : Int := Int.fdiv yy 400
  let yoe : Int := yy - era * 400
  let mp : Int := if m ≤ 2 then m + 9 else m - 3
  let doy : Int := (153 * mp + 2) / 5 + d - 1
  let doe : Int := yoe * 365 + yoe / 4 - yoe / 100 + doy
  era * 146097 + doe - 719468

/-- Civil date (year, month, day) of a day count since 1970-01-01. -/
def civilFromDays (z0 : Int) : Int × Int × Int :=
  let z : Int := z0 + 719468
  let era : Int := Int.fdiv z 146097
  let doe : Int := z - era * 146097
  let yoe : Int := (doe - doe / 1460 + doe / 36524 - doe / 146096) / 365
  let y : Int := yoe + era * 400
  let doy : Int := doe - (365 * yoe + yoe / 4 - yoe / 100)
  let mp : Int := (5 * doy + 2) / 153
  let d : Int := doy - (153 * mp + 2) / 5 + 1
  let m : Int := if mp < 10 then mp + 3 else mp - 9
  (if m ≤ 2 then y + 1 else y, m, d)

/-- `calendar.timegm` of a parsed date tuple: seconds since the epoch of the
tuple's fields read as UTC. -/
def timegm (t : DateTuple) : Int :=
  daysFromCivil t.year t.month t.day * 86400 + t.hour * 3600 + t.minute * 60 + t.second

/-- `email.utils.mktime_tz`: with a timezone offset, `timegm(tuple) - offset`;
without one, the tuple is interpreted as local time by `time.mktime`
(modelled by `env.mktimeLocal`). -/
def mktime_tz (env : Env) (t : DateTuple) : Int :=
  match t.tz with
  | some off => timegm t - off
  | none => env.mktimeLocal t

/-- A naive UTC datetime, as produced by `datetime.datetime.utcfromtimestamp`. -/
structure UtcDateTime where
  year : Int
  month : Int
  day : Int
  hour : Int
  minute : Int
  second : Int
deriving DecidableEq, Repr

/-- `datetime.datetime.utcfromtimestamp` on whole seconds. -/
def utcfromtimestamp (secs : Int) : UtcDateTime :=
  let days := Int.fdiv secs 86400
  let rem := Int.emod secs 86400
  let c := civilFromDays days
  { year := c.1, month := c.2.1, day := c.2.2,
    hour := rem / 3600, minute := (rem % 3600) / 60, second := rem % 60 }

/-- A natural number zero-padded to a given width. -/
def padZeros (w : Nat) (n : Nat) : String :=
  let s := toString n
  String.mk (List.replicate (w - s.length) '0') ++ s

/-- Python `"%0Nd" % n`: sign included in the field width. -/
def pyFmtInt (w : Nat) (n : Int) : String :=
  if n < 0 then "-" ++ padZeros (w - 1) n.natAbs else padZeros w n.natAbs

/-! ## File-system model

The archive directory is an ordered association list of file names; the ledger
file holds a pickled fingerprint set, a partition file holds the messages an
`mailbox.mbox` parse of it yields. -/

/-- Contents of one directory entry: a partition (what an `mailbox.mbox` parse
of it yields), the pickled ledger, or an unrelated file. -/
inductive FileData where
  | mboxFile (msgs : List EmailMessage)
  | ledgerFile (seen : List String)
  | otherFile
deriving DecidableEq, Repr

/-- The archive directory: an ordered list of named files (`os.listdir` order). -/
structure FileSystem where
  files : List (String × FileData)
deriving DecidableEq, Repr

/-- Insert or replace an entry of a string-keyed association list (the model of
`self.boxes[name] = outbox` and of writing a named file). -/
def setEntry {α : Type} : List (String × α) → String → α → List (String × α)
  | [], k, v => [(k, v)]
  | p :: rest, k, v => if p.1 == k then (k, v) :: rest else p :: setEntry rest k v

/-- Look a file up by name. -/
def FileSystem.lookup (fs : FileSystem) (name : String) : Option FileData :=
  List.lookup name fs.files

/-- Write a file (create or overwrite). -/
def FileSystem.write (fs : FileSystem) (name : String) (d : FileData) : FileSystem :=
  ⟨setEntry fs.files name d⟩

/-- `os.listdir`: the directory's entry names. -/
def FileSystem.listdir (fs : FileSystem) : List String :=
  fs.files.map Prod.fst

/-- The messages `mailbox.mbox(path)` yields for a directory entry: the stored
messages of a partition file, an empty box for a missing file, and no
messages for a file that is not mailbox data. -/
def FileSystem.readMbox (fs : FileSystem) (name : String) : List EmailMessage :=
  match fs.lookup name with
  | some (.mboxFile msgs) => msgs
  | _ => []

/-! ## The archive engine (`class MailArchive`) -/

/-- The exceptions the program raises or handles: the archive's own
`DuplicateError` and `UndatedError`, the `KeyError` and `UnicodeDecodeError`
handled by `process`, and any other propagating condition. -/
inductive PyErr where
  | duplicateError
  | undatedError
  | keyError
  | unicodeDecodeError
  | otherError (name : String)
deriving DecidableEq, Repr

/-- `MailArchive.SEEN_FNAME`. -/
def SEEN_FNAME : String := "seen.pickle"

/-- The in-scope state of an open archive: the in-memory fingerprint set
`self.seen` and the open-partition cache `self.boxes` (each cached handle is
its current message contents). -/
structure MailArchive where
  seen : List String
  boxes : List (String × List EmailMessage)
deriving DecidableEq, Repr

/-- `MailArchive.__enter__`: empty partition cache; ledger loaded from
`seen.pickle` when the file exists, empty set otherwise. -/
def MailArchive.enter (fs : FileSystem) : MailArchive :=
  { boxes := [],
    seen := match fs.lookup SEEN_FNAME with
            | some (.ledgerFile s) => s
            | _ => [] }

/-- `MailArchive.__exit__`: close (flush) every cached partition handle to its
file, then pickle the current ledger to `seen.pickle`.  It returns `False`, so
a pending exception is never suppressed. -/
def MailArchive.exit (fs : FileSystem) (st : MailArchive) : FileSystem :=
  let fs1 := st.boxes.foldl (fun acc nb => acc.write nb.1 (.mboxFile nb.2)) fs
  fs1.write SEEN_FNAME (.ledgerFile st.seen)

/-- `MailArchive._get_box_by_name`.  Note the source tests the cached handle
with `if outbox:`, which for a `mailbox.mbox` is its message count, so a cached
but empty box is re-opened from disk and re-cached. -/
def MailArchive.get_box_by_name (fs : FileSystem) (st : MailArchive) (name : String) :
    MailArchive × List EmailMessage :=
  match st.boxes.lookup name with
  | some msgs =>
    if msgs.isEmpty then
      let fresh := fs.readMbox name
      ({ st with boxes := setEntry st.boxes name fresh }, fresh)
    else (st, msgs)
  | none =>
    let fresh := fs.readMbox name
    ({ st with boxes := setEntry st.boxes name fresh }, fresh)

/-- Partition name derivation of `MailArchive._get_box_by_timestamp`:
`"%04d%02d" % (timestamp.year, timestamp.month)`. -/
def partitionName (ts : UtcDateTime) : String :=
  pyFmtInt 4 ts.year ++ pyFmtInt 2 ts.month

/-- `MailArchive.add`: fingerprint check against the ledger, ledger update,
date extraction and parsing, UTC conversion, and append to the month's
partition.  Returns the updated state and the raised exception, if any. -/
def MailArchive.add (env : Env) (fs : FileSystem) (st : MailArchive) (msg : EmailMessage) :
    MailArchive × Option PyErr :=
  let md5 := env.md5hex msg.content
  if md5 ∈ st.seen then (st, some .duplicateError)
  else
    let st1 : MailArchive := { st with seen := md5 :: st.seen }
    match msg.get "Date" with
    | none => (st1, some .undatedError)
    | some d =>
      if d = "" then (st1, some .undatedError)
      else match env.parsedate_tz d with
        | none => (st1, some .undatedError)
        | some t =>
          let ts := utcfromtimestamp (mktime_tz env t)
          let name := partitionName ts
          let (st2, msgs) := get_box_by_name fs st1 name
          ({ st2 with boxes := setEntry st2.boxes name (msgs ++ [msg]) }, none)

/-- Does the character list start with `[12][0-9]{5}`? -/
def yearMonthPrefix : List Char → Bool
  | c0 :: c1 :: c2 :: c3 :: c4 :: c5 :: _ =>
    (c0 == '1' || c0 == '2') && c1.isDigit && c2.isDigit && c3.isDigit
      && c4.isDigit && c5.isDigit
  | _ => false

/-- The partition-name filter of `MailArchive.__iter__`:
`re.match(r'[12][0-9]{5}', name)` — anchored at the start only, so any name
whose first six characters fit the pattern passes, whatever follows. -/
def boxNameMatches (name : String) : Bool :=
  yearMonthPrefix name.data

/-- One step of the `__iter__` scan: a matching entry is opened
(via the cache) and its messages appended to the yielded sequence. -/
def iterStep (fs : FileSystem) (acc : MailArchive × List EmailMessage) (name : String) :
    MailArchive × List EmailMessage :=
  if boxNameMatches name then
    let (st2, msgs) := MailArchive.get_box_by_name fs acc.1 name
    (st2, acc.2 ++ msgs)
  else acc

/-- `MailArchive.__iter__`: scan `os.listdir` in order, open every entry whose
name passes the filter, and yield its messages in container order. -/
def MailArchive.iterMessages (fs : FileSystem) (st : MailArchive) :
    MailArchive × List EmailMessage :=
  fs.listdir.foldl (iterStep fs) (st, [])

/-- The `with MailArchive(dir) as archive:` statement: `__enter__`, the body
(which may end in a raised exception), then `__exit__` on every path; since
`__exit__` returns `False`, the body's exception propagates to the caller. -/
def withMailArchive {α : Type} (fs : FileSystem)
    (body : MailArchive → MailArchive × Except PyErr α) :
    FileSystem × Except PyErr α :=
  let st := MailArchive.enter fs
  let (st2, res) := body st
  (MailArchive.exit fs st2, res)

/-! ## The ingestion driver (`process`) -/

/-- The per-entry tallies reported by `process`. -/
structure Counts where
  ok : Nat
  duplicate : Nat
  error : Nat
deriving DecidableEq, Repr

def Counts.zero : Counts := ⟨0, 0, 0⟩

/-- The per-message loop of `process` over one source mailbox.  Each source key
is the outcome of `box[key]`: a message, or the exception reading it raised.
The `try` block runs the read, `archive.add`, and `ok += 1`; the four `except`
clauses classify `KeyError` (skip), `UnicodeDecodeError` (error),
`DuplicateError` (duplicate) and `UndatedError` (error); any other exception
aborts the loop and propagates. -/
def processLoop (env : Env) (fs : FileSystem) :
    MailArchive → Counts → List (Except PyErr EmailMessage) →
    MailArchive × Counts × Option PyErr
  | st, c, [] => (st, c, none)
  | st, c, r :: rest =>
    let step : MailArchive × Option PyErr :=
      match r with
      | .error e => (st, some e)
      | .ok m => MailArchive.add env fs st m
    match step with
    | (st2, none) => processLoop env fs st2 { c with ok := c.ok + 1 } rest
    | (st2, some e) =>
      match e with
      | .keyError => processLoop env fs st2 c rest
      | .unicodeDecodeError =>
        processLoop env fs st2 { c with error := c.error + 1 } rest
      | .duplicateError =>
        processLoop env fs st2 { c with duplicate := c.duplicate + 1 } rest
      | .undatedError =>
        processLoop env fs st2 { c with error := c.error + 1 } rest
      | e => (st2, c, some e)

/-- `process` on one non-directory entry: open the source box, run one archive
scope around the per-message loop, and report the tallies. `__exit__` runs on
every path and an uncaught exception still propagates out of the scope. -/
def process_entry (env : Env) (fs : FileSystem)
    (reads : List (Except PyErr EmailMessage)) :
    FileSystem × Counts × Option PyErr :=
  let st := MailArchive.enter fs
  let (st2, c, exc) := processLoop env fs st Counts.zero reads
  (MailArchive.exit fs st2, c, exc)

/-! ## The metadata exporter (`export`) -/

/-- `timestamp.strftime('%Y-%m-%d %H:%M:%S')`. -/
def fmtUtc (ts : UtcDateTime) : String :=
  pyFmtInt 4 ts.year ++ "-" ++ pyFmtInt 2 ts.month ++ "-" ++ pyFmtInt 2 ts.day
    ++ " " ++ pyFmtInt 2 ts.hour ++ ":" ++ pyFmtInt 2 ts.minute
    ++ ":" ++ pyFmtInt 2 ts.second

/-- The body of the `export` loop for one message: skip when the From header
is missing or falsy; otherwise build the CSV row.  A Date that is absent or
fails `parsedate_tz` makes `mktime_tz(None)` raise a `TypeError`, which
propagates. -/
def export_step (env : Env) (m : EmailMessage) : Except PyErr (Option String) :=
  match m.get "From" with
  | none => .ok none
  | some s =>
    if s = "" then .ok none
    else
      let sender := lowerStr (env.parseaddr s).2
      let t? := match m.get "Date" with
        | none => none
        | some d => env.parsedate_tz d
      match t? with
      | none => .error (.otherError "TypeError")
      | some t =>
        let ts := utcfromtimestamp (mktime_tz env t)
        let size := m.content.length
        let is_list : Nat := if m.hasHeader "List-Id" then 1 else 0
        let recipients :=
          (env.getaddresses (m.get_all "To" ++ m.get_all "Cc")).map
            (fun p => lowerStr p.2)
        .ok (some (fmtUtc ts ++ "," ++ sender ++ ","
          ++ String.intercalate " " recipients ++ ","
          ++ toString size ++ "," ++ toString is_list))

/-- The `export` loop over the iterated messages: each retained message writes
one row; the first propagating exception stops the loop. -/
def exportLines (env : Env) : List EmailMessage → List String × Option PyErr
  | [] => ([], none)
  | m :: rest =>
    match export_step env m with
    | .ok none => exportLines env rest
    | .ok (some row) =>
      let (ls, e) := exportLines env rest
      (row :: ls, e)
    | .error e => ([], some e)

/-- `export` (named `exportCsv` here because `export` is reserved in Lean):
one archive scope, the fixed header line first, then one row per retained
message in archive iteration order.  Returns the lines written and the
exception that aborted the run, if any. -/
def exportCsv (env : Env) (fs : FileSystem) : List String × Option PyErr :=
  let st := MailArchive.enter fs
  let msgs := (MailArchive.iterMessages fs st).2
  let (ls, e) := exportLines env msgs
  ("timestamp,sender,recipients,size,list" :: ls, e)

/-! ## The spec's reading of the iteration filter (for the refinement claim C6)

The spec describes the partition filter as matching "a 6-digit year-month
pattern beginning with 1 or 2"; the following definition follows those words
(the whole name is the 6-digit pattern), to be compared with the source's
`boxNameMatches` above. -/

/-- Modelled from the spec's words: the name is exactly six characters, a `1`
or `2` followed by five digits. -/
def specSixDigitName (name : String) : Bool :=
  (name.data.length == 6) && yearMonthPrefix name.data

/-! ## Concrete instances used to evaluate the model -/

/-- An RFC-2822 date at `2024-03-15T10:00:00Z`. -/
def dateA : String := "Fri, 15 Mar 2024 10:00:00 +0000"

/-- An RFC-2822 date at `2023-12-31T23:59:59` with offset `-0001`
(one minute behind UTC), i.e. `2024-01-01T00:00:59Z`. -/
def dateB : String := "Sun, 31 Dec 2023 23:59:59 -0001"

/-- An RFC-2822 date with no timezone information. -/
def date7 : String := "Fri, 15 Mar 2024 10:00:00"

/-- A concrete environment: an injective stand-in fingerprint, a date parser
recognising `dateA` and `dateB`, a UTC+1 local clock, and address parsers that
treat their input as a bare address. -/
def envA : Env where
  md5hex := fun bs => String.intercalate "." (bs.map toString)
  parsedate_tz := fun s =>
    if s = dateA then some ⟨2024, 3, 15, 10, 0, 0, some 0⟩
    else if s = dateB then some ⟨2023, 12, 31, 23, 59, 59, some (-60)⟩
    else none
  mktimeLocal := fun t => timegm t - 3600
  parseaddr := fun s => ("", s)
  getaddresses := fun l => l.map (fun s => ("", s))

/-- A concrete environment whose date parser yields a tuple with no timezone
for `date7` (as `email.utils.parsedate_tz` does for a zone-less date). -/
def env7 : Env where
  md5hex := fun bs => String.intercalate "." (bs.map toString)
  parsedate_tz := fun s =>
    if s = date7 then some ⟨2024, 3, 15, 10, 0, 0, none⟩ else none
  mktimeLocal := fun t => timegm t - 3600
  parseaddr := fun s => ("", s)
  getaddresses := fun l => l.map (fun s => ("", s))

/-- The message of the export example: `From: A@X.COM`, `To: b@y.com`,
a valid date, no List-Id, three serialized bytes. -/
def msgA : EmailMessage := ⟨[("Date", dateA), ("From", "A@X.COM"), ("To", "b@y.com")], [65, 66, 67]⟩

/-- A message dated `dateB`. -/
def msgB : EmailMessage := ⟨[("Date", dateB)], [1]⟩

/-- A message dated `date7` (parsing succeeds, but with no timezone). -/
def msg7 : EmailMessage := ⟨[("Date", date7)], [2]⟩

/-- A message with no Date header at all. -/
def msgU : EmailMessage := ⟨[("Subject", "x")], [3]⟩

/-- A message whose From header exists but is empty. -/
def msgE : EmailMessage := ⟨[("From", ""), ("Date", dateA)], [4]⟩

/-- An empty archive directory. -/
def fs0 : FileSystem := ⟨[]⟩

/-- A freshly opened archive state over an empty directory. -/
def st0 : MailArchive := ⟨[], []⟩

/-- A stored message used by the iteration fixtures. -/
def mC : EmailMessage := ⟨[("From", "c@z.org")], [5]⟩

/-- A second stored message used by the iteration fixtures. -/
def mD : EmailMessage := ⟨[("From", "d@z.org")], [6]⟩

/-- An archive directory holding the ledger file, an unrelated `notes.txt`,
a partition `202403`, and a file named `2024010` (seven characters). -/
def fs6 : FileSystem :=
  ⟨[(SEEN_FNAME, .ledgerFile []), ("notes.txt", .otherFile),
    ("202403", .mboxFile [mC]), ("2024010", .mboxFile [mD])]⟩

/-- A concrete scope body that ends in a raised error after caching one
partition handle and updating the ledger (used to evaluate the scope-exit
guarantees on the abnormal path). -/
def bodyW : MailArchive → MailArchive × Except PyErr Unit :=
  fun _ => (⟨["f1"], [("202403", [mC])]⟩, Except.error (PyErr.otherError "boom"))

/-- Concatenation of the mailbox contents of a list of directory entries, in
order (the sequence `__iter__` yields over those entries). -/
def concatBoxes (fs : FileSystem) : List String → List EmailMessage
  | [] => []
  | n :: rest => fs.readMbox n ++ concatBoxes fs rest

/-- The body a scope runs to add one message, packaged for `withMailArchive`:
success is a normal return, a raised error ends the body exceptionally. -/
def addScope (env : Env) (fs : FileSystem) (m : EmailMessage) :
    FileSystem × Except PyErr Unit :=
  withMailArchive fs (fun st =>
    let (st2, e) := MailArchive.add env fs st m
    (st2, match e with
          | none => Except.ok ()
          | some err => Except.error err))

/-- The condition under which `add` raises `UndatedError`: no Date header,
a falsy (empty) Date header, or a Date `parsedate_tz` rejects. -/
def dateFails (env : Env) (m : EmailMessage) : Prop :=
  m.get "Date" = none ∨ m.get "Date" = some "" ∨
    ∃ d, m.get "Date" = some d ∧ env.parsedate_tz d = none

/-! ## Association-list and file-system lemmas -/

theorem lookup_setEntry_self {α : Type} (l : List (String × α)) (k : String) (v : α) :
    List.lookup k (setEntry l k v) = some v := by
  induction l with
  | nil => simp [setEntry, List.lookup]
  | cons p rest ih =>
    by_cases h : p.1 = k
    · simp [setEntry, h, List.lookup]
    · simp only [setEntry, beq_iff_eq, h, if_false, List.lookup]
      have : (k == p.1) = false := by simp [beq_iff_eq]; exact fun hh => h hh.symm
      simp [this, ih]

theorem lookup_setEntry_ne {α : Type} (l : List (String × α)) (k k2 : String) (v : α)
    (h : k2 ≠ k) : List.lookup k2 (setEntry l k v) = List.lookup k2 l := by
  have hbk : (k2 == k) = false := beq_eq_false_iff_ne.mpr h
  induction l with
  | nil => simp [setEntry, List.lookup, hbk]
  | cons p rest ih =>
    by_cases hp : p.1 = k
    · subst hp
      simp [setEntry, List.lookup, hbk]
    · simp only [setEntry, beq_iff_eq, hp, if_false, List.lookup]
      by_cases h2 : k2 = p.1
      · simp [h2]
      · have e1 : (k2 == p.1) = false := beq_eq_false_iff_ne.mpr h2
        simp [e1, ih]

theorem FileSystem.lookup_write_self (fs : FileSystem) (n : String) (d : FileData) :
    (fs.write n d).lookup n = some d :=
  lookup_setEntry_self fs.files n d

theorem FileSystem.lookup_write_ne (fs : FileSystem) (n n2 : String) (d : FileData)
    (h : n2 ≠ n) : (fs.write n d).lookup n2 = fs.lookup n2 :=
  lookup_setEntry_ne fs.files n n2 d h

/-! ## Lifecycle lemmas -/

theorem exit_ledger (fs : FileSystem) (st : MailArchive) :
    (MailArchive.exit fs st).lookup SEEN_FNAME = some (.ledgerFile st.seen) :=
  FileSystem.lookup_write_self _ _ _

theorem enter_exit_seen (fs : FileSystem) (st : MailArchive) :
    (MailArchive.enter (MailArchive.exit fs st)).seen = st.seen := by
  simp [MailArchive.enter, exit_ledger]

theorem enter_no_ledger (fs : FileSystem) (h : fs.lookup SEEN_FNAME = none) :
    (MailArchive.enter fs).seen = [] := by
  simp [MailArchive.enter, h]

theorem enter_boxes (fs : FileSystem) : (MailArchive.enter fs).boxes = [] := rfl

/-! ## Lemmas about `add` and the box cache -/

theorem get_box_seen (fs : FileSystem) (st : MailArchive) (name : String) :
    (MailArchive.get_box_by_name fs st name).1.seen = st.seen := by
  unfold MailArchive.get_box_by_name
  cases h : List.lookup name st.boxes with
  | none => simp
  | some msgs =>
    by_cases he : msgs.isEmpty <;> simp [he]

theorem add_of_mem (env : Env) (fs : FileSystem) (st : MailArchive) (m : EmailMessage)
    (h : env.md5hex m.content ∈ st.seen) :
    MailArchive.add env fs st m = (st, some PyErr.duplicateError) := by
  simp [MailArchive.add, h]

theorem add_undated_spec (env : Env) (fs : FileSystem) (st : MailArchive) (m : EmailMessage)
    (hn : env.md5hex m.content ∉ st.seen) (hd : dateFails env m) :
    MailArchive.add env fs st m =
      ({ st with seen := env.md5hex m.content :: st.seen }, some PyErr.undatedError) := by
  rcases hd with h | h | ⟨d, hd1, hd2⟩
  · simp [MailArchive.add, hn, h]
  · simp [MailArchive.add, hn, h]
  · by_cases he : d = ""
    · subst he
      simp [MailArchive.add, hn, hd1]
    · simp [MailArchive.add, hn, hd1, he, hd2]

theorem add_success_spec (env : Env) (fs : FileSystem) (st : MailArchive)
    (m : EmailMessage) (d : String) (t : DateTuple)
    (hn : env.md5hex m.content ∉ st.seen) (hd : m.get "Date" = some d)
    (hne : d ≠ "") (hp : env.parsedate_tz d = some t) :
    (MailArchive.add env fs st m).2 = none ∧
    (MailArchive.add env fs st m).1.seen = env.md5hex m.content :: st.seen ∧
    List.lookup (partitionName (utcfromtimestamp (mktime_tz env t)))
        (MailArchive.add env fs st m).1.boxes =
      some ((MailArchive.get_box_by_name fs
          { st with seen := env.md5hex m.content :: st.seen }
          (partitionName (utcfromtimestamp (mktime_tz env t)))).2 ++ [m]) := by
  have hseen := get_box_seen fs { st with seen := env.md5hex m.content :: st.seen }
    (partitionName (utcfromtimestamp (mktime_tz env t)))
  rcases hpr : MailArchive.get_box_by_name fs
      { st with seen := env.md5hex m.content :: st.seen }
      (partitionName (utcfromtimestamp (mktime_tz env t))) with ⟨st2, msgs⟩
  rw [hpr] at hseen
  simp at hseen
  simp [MailArchive.add, hn, hd, hne, hp, hpr, lookup_setEntry_self, hseen]

theorem add_seen_of_not_mem (env : Env) (fs : FileSystem) (st : MailArchive)
    (m : EmailMessage) (hn : env.md5hex m.content ∉ st.seen) :
    (MailArchive.add env fs st m).1.seen = env.md5hex m.content :: st.seen := by
  cases hd : m.get "Date" with
  | none => simp [MailArchive.add, hn, hd]
  | some d =>
    by_cases he : d = ""
    · simp [MailArchive.add, hn, hd, he]
    · cases hp : env.parsedate_tz d with
      | none => simp [MailArchive.add, hn, hd, he, hp]
      | some t =>
        have hseen := get_box_seen fs { st with seen := env.md5hex m.content :: st.seen }
          (partitionName (utcfromtimestamp (mktime_tz env t)))
        rcases hpr : MailArchive.get_box_by_name fs
            { st with seen := env.md5hex m.content :: st.seen }
            (partitionName (utcfromtimestamp (mktime_tz env t))) with ⟨st2, msgs⟩
        rw [hpr] at hseen
        simp at hseen
        simp [MailArchive.add, hn, hd, he, hp, hpr, hseen]

theorem addScope_fst (env : Env) (fs : FileSystem) (m : EmailMessage) :
    (addScope env fs m).1 =
      MailArchive.exit fs (MailArchive.add env fs (MailArchive.enter fs) m).1 := by
  unfold addScope withMailArchive
  rcases h : MailArchive.add env fs (MailArchive.enter fs) m with ⟨st2, e⟩
  cases e <;> simp [h]

/-! ## Claim theorems -/

/-- C1: when a message's fingerprint is already in the in-memory ledger,
`MailArchive.add` raises `DuplicateError` and changes nothing: the ledger set
and the partition-handle cache (which holds every open partition's contents)
are returned unchanged, and `add` has no other effect — it never touches the
directory on this path. -/
theorem add_duplicate_leaves_state_unchanged (env : Env) (fs : FileSystem)
    (st : MailArchive) (m : EmailMessage)
    (h : env.md5hex m.content ∈ st.seen) :
    (MailArchive.add env fs st m).2 = some PyErr.duplicateError ∧
    (MailArchive.add env fs st m).1.seen = st.seen ∧
    (MailArchive.add env fs st m).1.boxes = st.boxes := by
  simp [add_of_mem env fs st m h]

theorem add_duplicate_leaves_state_unchanged_app :
    envA.md5hex msgA.content ∈ (⟨["65.66.67"], []⟩ : MailArchive).seen ∧
    (MailArchive.add envA fs0 ⟨["65.66.67"], []⟩ msgA).2 = some PyErr.duplicateError ∧
    (MailArchive.add envA fs0 ⟨["65.66.67"], []⟩ msgA).1.seen = ["65.66.67"] := by
  have h := add_duplicate_leaves_state_unchanged envA fs0 ⟨["65.66.67"], []⟩ msgA (by decide)
  exact ⟨by decide, h.1, h.2.1⟩

/-- C2: for a non-duplicate message whose Date header is absent or
unparseable, `add` raises `UndatedError` and appends the message to no
partition (the handle cache is unchanged and the directory untouched), yet
the fingerprint has been added to the ledger, so re-adding byte-identical
content afterwards raises `DuplicateError`. -/
theorem add_undated_records_fingerprint (env : Env) (fs : FileSystem)
    (st : MailArchive) (m m2 : EmailMessage)
    (hn : env.md5hex m.content ∉ st.seen)
    (hd : dateFails env m)
    (hb : m2.content = m.content) :
    (MailArchive.add env fs st m).2 = some PyErr.undatedError ∧
    (MailArchive.add env fs st m).1.boxes = st.boxes ∧
    (MailArchive.add env fs st m).1.seen = env.md5hex m.content :: st.seen ∧
    (MailArchive.add env fs (MailArchive.add env fs st m).1 m2).2 =
      some PyErr.duplicateError := by
  have h := add_undated_spec env fs st m hn hd
  have hmem : env.md5hex m2.content ∈ (MailArchive.add env fs st m).1.seen := by
    simp [h, hb]
  exact ⟨by simp [h], by simp [h], by simp [h],
    by simp [add_of_mem env fs _ m2 hmem]⟩

theorem add_undated_records_fingerprint_app :
    (MailArchive.add envA fs0 st0 msgU).2 = some PyErr.undatedError ∧
    (MailArchive.add envA fs0 (MailArchive.add envA fs0 st0 msgU).1 msgU).2 =
      some PyErr.duplicateError := by
  have h := add_undated_records_fingerprint envA fs0 st0 msgU msgU
    (by decide) (Or.inl (by decide)) rfl
  exact ⟨h.1, h.2.2.2⟩

/-- C3: a successfully added message is appended to the partition whose name
is `"%04d%02d" % (year, month)` of the parsed Date converted to UTC
(`partitionName` is exactly that format, applied to the
`utcfromtimestamp (mktime_tz ...)` conversion), the previous contents of that
partition's handle being kept.  The witness checks the two dated examples:
`2024-03-15T10:00:00Z` lands in `"202403"`, and `2023-12-31T23:59:59` at
offset `-0001` lands in `"202401"` — the UTC month, not the local-time month. -/
theorem add_routes_to_utc_month_partition (env : Env) (fs : FileSystem)
    (st : MailArchive) (m : EmailMessage) (d : String) (t : DateTuple)
    (hn : env.md5hex m.content ∉ st.seen) (hd : m.get "Date" = some d)
    (hne : d ≠ "") (hp : env.parsedate_tz d = some t) :
    (MailArchive.add env fs st m).2 = none ∧
    List.lookup (partitionName (utcfromtimestamp (mktime_tz env t)))
        (MailArchive.add env fs st m).1.boxes =
      some ((MailArchive.get_box_by_name fs
          { st with seen := env.md5hex m.content :: st.seen }
          (partitionName (utcfromtimestamp (mktime_tz env t)))).2 ++ [m]) := by
  have h := add_success_spec env fs st m d t hn hd hne hp
  exact ⟨h.1, h.2.2⟩

theorem add_routes_to_utc_month_partition_app :
    ((MailArchive.add envA fs0 st0 msgA).2 = none ∧
      List.lookup "202403" (MailArchive.add envA fs0 st0 msgA).1.boxes =
        some [msgA]) ∧
    ((MailArchive.add envA fs0 st0 msgB).2 = none ∧
      List.lookup "202401" (MailArchive.add envA fs0 st0 msgB).1.boxes =
        some [msgB]) := by
  have h1 := add_routes_to_utc_month_partition envA fs0 st0 msgA dateA
    ⟨2024, 3, 15, 10, 0, 0, some 0⟩ (by decide) (by decide) (by decide) (by decide)
  have h2 := add_routes_to_utc_month_partition envA fs0 st0 msgB dateB
    ⟨2023, 12, 31, 23, 59, 59, some (-60)⟩ (by decide) (by decide) (by decide) (by decide)
  refine ⟨⟨h1.1, ?_⟩, ⟨h2.1, ?_⟩⟩
  · rw [show ("202403" : String) =
        partitionName (utcfromtimestamp (mktime_tz envA ⟨2024, 3, 15, 10, 0, 0, some 0⟩))
      by decide, h1.2]
    decide
  · rw [show ("202401" : String) =
        partitionName (utcfromtimestamp (mktime_tz envA ⟨2023, 12, 31, 23, 59, 59, some (-60)⟩))
      by decide, h2.2]
    decide

/-- C4: deduplication survives close and reopen — a message added in one
scope, the scope closed (ledger persisted by `__exit__`), the archive
reopened (`__enter__` reloads the ledger): adding byte-identical content in
the new scope raises `DuplicateError`.  And opening a directory with no
ledger file yields an empty ledger. -/
theorem dedup_preserved_across_reopen (env : Env) (fs : FileSystem)
    (m m2 : EmailMessage) (hb : m2.content = m.content)
    (hok : (MailArchive.add env fs (MailArchive.enter fs) m).2 = none) :
    (MailArchive.add env (addScope env fs m).1
        (MailArchive.enter (addScope env fs m).1) m2).2 =
      some PyErr.duplicateError ∧
    ∀ fs2 : FileSystem, fs2.lookup SEEN_FNAME = none →
      (MailArchive.enter fs2).seen = [] := by
  refine ⟨?_, fun fs2 h2 => enter_no_ledger fs2 h2⟩
  have hn : env.md5hex m.content ∉ (MailArchive.enter fs).seen := by
    intro hmem
    rw [add_of_mem env fs (MailArchive.enter fs) m hmem] at hok
    exact Option.noConfusion hok
  have hseen := add_seen_of_not_mem env fs (MailArchive.enter fs) m hn
  have hmem2 : env.md5hex m2.content ∈
      (MailArchive.enter (addScope env fs m).1).seen := by
    rw [addScope_fst, enter_exit_seen, hseen, hb]
    exact List.mem_cons_self _ _
  rw [add_of_mem _ _ _ _ hmem2]

theorem dedup_preserved_across_reopen_app :
    (MailArchive.add envA (addScope envA fs0 msgA).1
        (MailArchive.enter (addScope envA fs0 msgA).1) msgA).2 =
      some PyErr.duplicateError ∧
    (MailArchive.enter fs0).seen = [] := by
  have h := dedup_preserved_across_reopen envA fs0 msgA msgA rfl (by decide)
  exact ⟨h.1, h.2 fs0 (by decide)⟩

theorem foldl_write_not_mem (boxes : List (String × List EmailMessage))
    (fs0 : FileSystem) (name : String) (h : name ∉ boxes.map Prod.fst) :
    (boxes.foldl (fun acc nb => acc.write nb.1 (.mboxFile nb.2)) fs0).lookup name =
      fs0.lookup name := by
  induction boxes generalizing fs0 with
  | nil => rfl
  | cons nb rest ih =>
    simp only [List.map_cons, List.mem_cons, not_or] at h
    simp only [List.foldl_cons]
    rw [ih _ h.2]
    exact FileSystem.lookup_write_ne fs0 nb.1 name _ h.1

theorem foldl_write_lookup (boxes : List (String × List EmailMessage))
    (fs0 : FileSystem) (name : String) (msgs : List EmailMessage)
    (hnd : (boxes.map Prod.fst).Nodup)
    (hm : List.lookup name boxes = some msgs) :
    (boxes.foldl (fun acc nb => acc.write nb.1 (.mboxFile nb.2)) fs0).lookup name =
      some (.mboxFile msgs) := by
  induction boxes generalizing fs0 with
  | nil => cases hm
  | cons nb rest ih =>
    simp only [List.map_cons, List.nodup_cons] at hnd
    simp only [List.foldl_cons]
    by_cases he : name = nb.1
    · have hv : msgs = nb.2 := by
        rw [he] at hm
        simpa [List.lookup] using hm.symm
      have hnm : name ∉ rest.map Prod.fst := by
        rw [he]; exact hnd.1
      rw [foldl_write_not_mem rest _ name hnm, hv, he]
      exact FileSystem.lookup_write_self fs0 nb.1 _
    · have hm2 : List.lookup name rest = some msgs := by
        have hne : (name == nb.1) = false := beq_eq_false_iff_ne.mpr he
        simpa [List.lookup, hne] using hm
      exact ih _ hnd.2 hm2

theorem exit_flushes (fs : FileSystem) (st : MailArchive)
    (hnd : (st.boxes.map Prod.fst).Nodup) (name : String) (msgs : List EmailMessage)
    (hm : List.lookup name st.boxes = some msgs) (hne : name ≠ SEEN_FNAME) :
    (MailArchive.exit fs st).lookup name = some (.mboxFile msgs) := by
  unfold MailArchive.exit
  rw [FileSystem.lookup_write_ne _ _ _ _ hne]
  exact foldl_write_lookup st.boxes fs name msgs hnd hm

/-- C5: on every exit path of an open/close scope — normal completion or a
raised exception — `__exit__` runs: the full current ledger is written to
`seen.pickle`, every cached partition handle is flushed to its file, and the
body's outcome (including an exception) is returned unchanged to the caller
(`__exit__` returns `False`, never suppressing).  In the model the scope is a
single function, so `__exit__` runs exactly once per scope by construction. -/
theorem scope_close_persists_and_propagates {α : Type} (fs : FileSystem)
    (body : MailArchive → MailArchive × Except PyErr α)
    (hnd : ((body (MailArchive.enter fs)).1.boxes.map Prod.fst).Nodup) :
    (withMailArchive fs body).2 = (body (MailArchive.enter fs)).2 ∧
    (withMailArchive fs body).1.lookup SEEN_FNAME =
      some (.ledgerFile (body (MailArchive.enter fs)).1.seen) ∧
    ∀ name msgs,
      List.lookup name (body (MailArchive.enter fs)).1.boxes = some msgs →
      name ≠ SEEN_FNAME →
      (withMailArchive fs body).1.lookup name = some (.mboxFile msgs) := by
  have hw : withMailArchive fs body =
      (MailArchive.exit fs (body (MailArchive.enter fs)).1,
        (body (MailArchive.enter fs)).2) := by
    unfold withMailArchive
    rcases h : body (MailArchive.enter fs) with ⟨st2, res⟩
    simp [h]
  rw [hw]
  exact ⟨rfl, exit_ledger _ _,
    fun name msgs hm hne => exit_flushes fs _ hnd name msgs hm hne⟩

theorem scope_close_persists_and_propagates_app :
    (withMailArchive fs0 bodyW).2 = Except.error (PyErr.otherError "boom") ∧
    (withMailArchive fs0 bodyW).1.lookup SEEN_FNAME =
      some (.ledgerFile ["f1"]) ∧
    (withMailArchive fs0 bodyW).1.lookup "202403" = some (.mboxFile [mC]) := by
  have h := scope_close_persists_and_propagates fs0 bodyW (by decide)
  exact ⟨h.1, h.2.1, h.2.2 "202403" [mC] (by decide) (by decide)⟩

/-! ## Iteration lemmas -/

theorem get_box_inv (fs : FileSystem) (st : MailArchive) (name : String)
    (hinv : ∀ n ms, List.lookup n st.boxes = some ms → ms = fs.readMbox n) :
    (MailArchive.get_box_by_name fs st name).2 = fs.readMbox name ∧
    (∀ n ms,
      List.lookup n (MailArchive.get_box_by_name fs st name).1.boxes = some ms →
      ms = fs.readMbox n) := by
  have hset : ∀ n ms,
      List.lookup n (setEntry st.boxes name (fs.readMbox name)) = some ms →
      ms = fs.readMbox n := by
    intro n ms hl
    by_cases hne : n = name
    · subst hne
      rw [lookup_setEntry_self] at hl
      exact (Option.some_inj.mp hl).symm
    · rw [lookup_setEntry_ne _ _ _ _ hne] at hl
      exact hinv n ms hl
  unfold MailArchive.get_box_by_name
  cases h : List.lookup name st.boxes with
  | none =>
    refine ⟨?_, hset⟩
    simp
  | some msgs =>
    by_cases he : msgs.isEmpty
    · simp only [he, if_true]
      refine ⟨?_, hset⟩
      simp
    · simp only [he, if_false]
      exact ⟨hinv name msgs h, hinv⟩

theorem iter_fold_spec (fs : FileSystem) (names : List String) :
    ∀ (st : MailArchive) (acc : List EmailMessage),
    (∀ n ms, List.lookup n st.boxes = some ms → ms = fs.readMbox n) →
    (names.foldl (iterStep fs) (st, acc)).2 =
      acc ++ concatBoxes fs (names.filter boxNameMatches) := by
  induction names with
  | nil => intro st acc _; simp [concatBoxes]
  | cons n rest ih =>
    intro st acc hinv
    by_cases hmatch : boxNameMatches n
    · have hgb := get_box_inv fs st n hinv
      rcases hpr : MailArchive.get_box_by_name fs st n with ⟨st2, msgs⟩
      rw [hpr] at hgb
      simp only at hgb
      have hstep : iterStep fs (st, acc) n = (st2, acc ++ msgs) := by
        simp [iterStep, hmatch, hpr]
      simp only [List.foldl_cons, hstep]
      rw [ih st2 (acc ++ msgs) hgb.2]
      simp [List.filter_cons, hmatch, concatBoxes, hgb.1]
    · have hstep : iterStep fs (st, acc) n = (st, acc) := by
        simp [iterStep, hmatch]
      simp only [List.foldl_cons, hstep]
      rw [ih st acc hinv]
      simp [List.filter_cons, hmatch]

theorem specSixDigit_implies_match (name : String)
    (h : specSixDigitName name = true) : boxNameMatches name = true := by
  simp only [specSixDigitName, Bool.and_eq_true] at h
  exact h.2

/-- C6 counterexample: the claim reads the filter as opening exactly the
6-digit year-month names and ignoring every other entry.  The directory `fs6`
contains a file named `"2024010"` (seven characters), which is not a 6-digit
year-month name, yet iteration opens it as a partition and yields its message
`mD`: `re.match(r'[12][0-9]{5}', name)` anchors only at the start of the
name. -/
theorem iter_claim_counterexample :
    specSixDigitName "2024010" = false ∧
    (MailArchive.iterMessages fs6 (MailArchive.enter fs6)).2 = [mC, mD] := by
  decide

/-- C6 (amended): iteration opens as partitions exactly the directory entries
whose name *starts with* a `1` or `2` followed by five digits (the prefix
match of `re.match`), so names longer than six characters whose first six
characters fit the pattern are opened too; every 6-digit year-month name
qualifies, and entries such as `notes.txt` or the ledger file `seen.pickle`
do not match and never yield messages. -/
theorem iter_opens_prefix_matched_entries (fs : FileSystem) (st : MailArchive)
    (hinv : ∀ n ms, List.lookup n st.boxes = some ms → ms = fs.readMbox n) :
    (MailArchive.iterMessages fs st).2 =
      concatBoxes fs (fs.listdir.filter boxNameMatches) ∧
    (∀ name, specSixDigitName name = true → boxNameMatches name = true) ∧
    boxNameMatches "notes.txt" = false ∧
    boxNameMatches SEEN_FNAME = false := by
  refine ⟨?_, specSixDigit_implies_match, by decide, by decide⟩
  have h := iter_fold_spec fs fs.listdir st [] hinv
  simpa [MailArchive.iterMessages] using h

theorem iter_opens_prefix_matched_entries_app :
    (MailArchive.iterMessages fs6 (MailArchive.enter fs6)).2 =
      concatBoxes fs6 (fs6.listdir.filter boxNameMatches) ∧
    boxNameMatches "notes.txt" = false := by
  have h := iter_opens_prefix_matched_entries fs6 (MailArchive.enter fs6)
    (fun n ms hm => Option.noConfusion hm)
  exact ⟨h.1, h.2.2.1⟩

/-- C7 counterexample: under `env7` the Date of `msg7` parses to a tuple that
carries no timezone information.  The claim demands `UndatedError` for such a
Date, but `add` succeeds: `parsedate_tz` returned a truthy tuple, and
`mktime_tz` interprets it as local time instead of failing. -/
theorem undated_claim_counterexample :
    env7.parsedate_tz date7 = some ⟨2024, 3, 15, 10, 0, 0, none⟩ ∧
    (MailArchive.add env7 fs0 st0 msg7).2 = none := by
  decide

/-- C7 (amended): for a non-duplicate message, `add` raises `UndatedError`
iff the Date header is absent, falsy (empty), or rejected by `parsedate_tz`.
A Date that parses to a tuple — including one with no timezone information —
never raises `UndatedError`: the add succeeds, with the timestamp interpreted
by `mktime_tz` (local time when the tuple has no offset). -/
theorem add_undated_iff_date_unparseable (env : Env) (fs : FileSystem)
    (st : MailArchive) (m : EmailMessage)
    (hn : env.md5hex m.content ∉ st.seen) :
    ((MailArchive.add env fs st m).2 = some PyErr.undatedError ↔ dateFails env m) ∧
    ∀ d t, m.get "Date" = some d → d ≠ "" → env.parsedate_tz d = some t →
      (MailArchive.add env fs st m).2 = none := by
  have hsucc : ∀ d t, m.get "Date" = some d → d ≠ "" →
      env.parsedate_tz d = some t → (MailArchive.add env fs st m).2 = none :=
    fun d t hd hne hp => (add_success_spec env fs st m d t hn hd hne hp).1
  refine ⟨⟨?_, fun hd => by rw [add_undated_spec env fs st m hn hd]⟩, hsucc⟩
  intro hu
  cases hd : m.get "Date" with
  | none => exact Or.inl hd
  | some d =>
    by_cases he : d = ""
    · subst he
      exact Or.inr (Or.inl hd)
    · cases hp : env.parsedate_tz d with
      | none => exact Or.inr (Or.inr ⟨d, hd, hp⟩)
      | some t =>
        rw [hsucc d t hd he hp] at hu
        exact Option.noConfusion hu

theorem add_undated_iff_date_unparseable_app :
    (MailArchive.add env7 fs0 st0 msg7).2 = none ∧
    (MailArchive.add env7 fs0 st0 msgU).2 = some PyErr.undatedError := by
  have h7 := add_undated_iff_date_unparseable env7 fs0 st0 msg7 (by decide)
  have hU := add_undated_iff_date_unparseable env7 fs0 st0 msgU (by decide)
  exact ⟨h7.2 date7 ⟨2024, 3, 15, 10, 0, 0, none⟩ (by decide) (by decide) (by decide),
    hU.1.mpr (Or.inl (by decide))⟩

/-- C8: the per-message loop of `process` handles exactly four conditions:
`KeyError` is skipped with no count impact, `UnicodeDecodeError` increments
the error count, `DuplicateError` the duplicate count, `UndatedError` the
error count; a successful `add` increments the ok count; any other raised
condition aborts the remaining messages of the entry and passes unchanged
through the entry-level scope (nothing catches it there). -/
theorem process_classifies_four_conditions (env : Env) (fs : FileSystem) :
    (∀ st c rest, processLoop env fs st c (Except.error PyErr.keyError :: rest) =
      processLoop env fs st c rest) ∧
    (∀ st (c : Counts) rest,
      processLoop env fs st c (Except.error PyErr.unicodeDecodeError :: rest) =
        processLoop env fs st { c with error := c.error + 1 } rest) ∧
    (∀ st (c : Counts) rest (m : EmailMessage),
      (MailArchive.add env fs st m).2 = none →
      processLoop env fs st c (Except.ok m :: rest) =
        processLoop env fs (MailArchive.add env fs st m).1
          { c with ok := c.ok + 1 } rest) ∧
    (∀ st (c : Counts) rest (m : EmailMessage),
      (MailArchive.add env fs st m).2 = some PyErr.duplicateError →
      processLoop env fs st c (Except.ok m :: rest) =
        processLoop env fs (MailArchive.add env fs st m).1
          { c with duplicate := c.duplicate + 1 } rest) ∧
    (∀ st (c : Counts) rest (m : EmailMessage),
      (MailArchive.add env fs st m).2 = some PyErr.undatedError →
      processLoop env fs st c (Except.ok m :: rest) =
        processLoop env fs (MailArchive.add env fs st m).1
          { c with error := c.error + 1 } rest) ∧
    (∀ st c rest s,
      processLoop env fs st c (Except.error (PyErr.otherError s) :: rest) =
        (st, c, some (PyErr.otherError s))) ∧
    (∀ reads, (process_entry env fs reads).2 =
      (processLoop env fs (MailArchive.enter fs) Counts.zero reads).2) := by
  refine ⟨fun st c rest => by simp [processLoop],
    fun st c rest => by simp [processLoop],
    ?_, ?_, ?_,
    fun st c rest s => by simp [processLoop],
    fun reads => ?_⟩
  · intro st c rest m hA
    rcases h : MailArchive.add env fs st m with ⟨st2, e⟩
    rw [h] at hA
    simp at hA
    subst hA
    simp [processLoop, h]
  · intro st c rest m hA
    rcases h : MailArchive.add env fs st m with ⟨st2, e⟩
    rw [h] at hA
    simp at hA
    subst hA
    simp [processLoop, h]
  · intro st c rest m hA
    rcases h : MailArchive.add env fs st m with ⟨st2, e⟩
    rw [h] at hA
    simp at hA
    subst hA
    simp [processLoop, h]
  · rcases h : processLoop env fs (MailArchive.enter fs) Counts.zero reads
      with ⟨st2, c, exc⟩
    simp [process_entry, h]

theorem process_classifies_four_conditions_app :
    processLoop envA fs0 st0 Counts.zero
        [Except.error (PyErr.otherError "OSError"), Except.ok msgA] =
      (st0, Counts.zero, some (PyErr.otherError "OSError")) ∧
    processLoop envA fs0 ⟨["65.66.67"], []⟩ Counts.zero [Except.ok msgA] =
      (⟨["65.66.67"], []⟩, ⟨0, 1, 0⟩, none) ∧
    (process_entry envA fs0 [Except.error PyErr.keyError]).2 =
      (Counts.zero, none) := by
  have h := process_classifies_four_conditions envA fs0
  refine ⟨h.2.2.2.2.2.1 st0 Counts.zero [Except.ok msgA] "OSError", ?_, ?_⟩
  · rw [h.2.2.2.1 ⟨["65.66.67"], []⟩ Counts.zero [] msgA (by decide)]
    decide
  · rw [h.2.2.2.2.2.2 [Except.error PyErr.keyError],
      h.1 (MailArchive.enter fs0) Counts.zero []]
    decide

/-- C9: export writes the fixed header line first; a message with no From
header is skipped; a retained message's row is the comma-joined, unescaped
fields: the Date converted to UTC and formatted `YYYY-MM-DD HH:MM:SS`, the
lowercased address part of From, the lowercased address parts of all To and
Cc headers space-joined in original order (not deduplicated), the exact byte
length of the serialization, and `1`/`0` for List-Id presence.  The witness
checks the spec's example: `From: A@X.COM`, `To: b@y.com`, no List-Id, three
bytes → `...,a@x.com,b@y.com,3,0`. -/
theorem export_rows_shape (env : Env) (fs : FileSystem) :
    (exportCsv env fs).1.head? = some "timestamp,sender,recipients,size,list" ∧
    (∀ m : EmailMessage, m.get "From" = none → export_step env m = .ok none) ∧
    ∀ (m : EmailMessage) (s d : String) (t : DateTuple),
      m.get "From" = some s → s ≠ "" → m.get "Date" = some d →
      env.parsedate_tz d = some t →
      export_step env m = .ok (some
        (fmtUtc (utcfromtimestamp (mktime_tz env t)) ++ ","
          ++ lowerStr (env.parseaddr s).2 ++ ","
          ++ String.intercalate " "
              ((env.getaddresses (m.get_all "To" ++ m.get_all "Cc")).map
                (fun p => lowerStr p.2)) ++ ","
          ++ toString m.content.length ++ ","
          ++ toString (if m.hasHeader "List-Id" then (1 : Nat) else 0))) := by
  refine ⟨?_, fun m hF => by simp [export_step, hF], ?_⟩
  · rcases h : exportLines env
        (MailArchive.iterMessages fs (MailArchive.enter fs)).2 with ⟨ls, e⟩
    simp [exportCsv, h]
  · intro m s d t hF hne hd hp
    simp [export_step, hF, hne, hd, hp]

theorem export_rows_shape_app :
    (exportCsv envA fs0).1.head? = some "timestamp,sender,recipients,size,list" ∧
    export_step envA msgA =
      Except.ok (some "2024-03-15 10:00:00,a@x.com,b@y.com,3,0") := by
  have h := export_rows_shape envA fs0
  refine ⟨h.1, ?_⟩
  rw [h.2.2 msgA "A@X.COM" dateA ⟨2024, 3, 15, 10, 0, 0, some 0⟩
    (by decide) (by decide) (by decide) (by decide)]
  simp only [Except.ok.injEq, Option.some.injEq]
  decide

/-- C10: export's skip condition tests the truthiness of the From value, not
its mere presence — a stored message whose From header exists with an empty
value writes no row, exactly as when the header is absent. -/
theorem export_skips_empty_from (env : Env) (m m2 : EmailMessage)
    (rest : List EmailMessage)
    (h : m.get "From" = some "") (h2 : m2.get "From" = none) :
    export_step env m = .ok none ∧
    exportLines env (m :: rest) = exportLines env rest ∧
    exportLines env (m2 :: rest) = exportLines env rest := by
  have e1 : export_step env m = .ok none := by simp [export_step, h]
  have e2 : export_step env m2 = .ok none := by simp [export_step, h2]
  exact ⟨e1, by simp [exportLines, e1], by simp [exportLines, e2]⟩

theorem export_skips_empty_from_app :
    export_step envA msgE = Except.ok none ∧
    exportLines envA [msgE, msgA] = exportLines envA [msgA] := by
  have h := export_skips_empty_from envA msgE msgU [msgA] (by decide) (by decide)
  exact ⟨h.1, h.2.1⟩

end Mailsorter
